import Mathlib

/-!
# Verification of the EnigmaNet tabular transforms

Shallow embedding of the two functionally independent routines of the
repository, `classfill` and `minorityclass`, which appear (textually verbatim)
both in `enigmalibrary/enigmatransforms.py` and in
`transformations/enigmatransformations.py`.  The two modules differ in their
headers: the `enigmalibrary` copy imports numpy as `np`, while the
`transformations` module has no import statements at all, so there `np` is an
unresolved global name and each evaluation of an `np.` expression raises
`NameError`.

Modelling choices:
* a dataframe cell is `Option ℚ`; `none` models the `NaN` missing sentinel and
  `some q` a numeric value (exact rationals in place of floats);
* pandas `==` comparison is `eqCell`: `NaN` compares unequal to everything,
  including itself;
* `pandas.Series.unique` is `uniqueList`: first-appearance order, a single
  `NaN` representative kept (pandas dedups `NaN` in `unique`);
* `np.nanmean` is `nanmean`: mean of the non-missing entries, `NaN` (`none`)
  on an all-missing list;
* a missing column label raises pandas `KeyError`, modelled as
  `TransformError.invalidColumn`; `np.argmin` on an empty sequence raises
  `ValueError`, modelled as `TransformError.valueError`; the unresolved `np`
  of the import-less `transformations` module raises `NameError`, modelled as
  `TransformError.nameError`;
* the nested `for site / for cls` loop of `classfill` is flattened into a fold
  (`fillLoop`) over the list of (site, class) pairs in the code's enumeration
  order (sites outer, classes inner), each step being the inner per-column
  loop of the source.
-/

/-- A dataframe cell: `none` is the `NaN` missing sentinel. -/
abbrev Cell := Option ℚ

/-- pandas `==` on cells: `NaN` is unequal to everything, itself included. -/
def eqCell (a b : Cell) : Bool :=
  match a, b with
  | some x, some y => decide (x = y)
  | _, _ => false

/-- An in-memory table: named columns and rows of cells (row-major). -/
structure DataFrame where
  cols : List String
  rows : List (List Cell)
deriving DecidableEq

/-- A dataframe is rectangular when each row has one cell per column. -/
def DataFrame.Rect (df : DataFrame) : Prop :=
  ∀ r ∈ df.rows, r.length = df.cols.length

instance (df : DataFrame) : Decidable df.Rect := by
  unfold DataFrame.Rect; infer_instance

/-- Errors the Python code can raise: pandas `KeyError` on a missing column
label, numpy `ValueError` on `argmin` of an empty sequence, and Python
`NameError` for the unresolved `np` of the import-less `transformations`
module. -/
inductive TransformError where
  | invalidColumn
  | valueError
  | nameError
deriving DecidableEq

/-- Position of a column label in the column list (pandas label lookup;
`none` models the `KeyError` case). -/
def colIndex (df : DataFrame) (name : String) : Option ℕ :=
  go 0 df.cols
where
  go (n : ℕ) : List String → Option ℕ
    | [] => none
    | c :: cs => if c = name then some n else go (n + 1) cs

/-- The values of column `j` down the rows (a pandas `Series`). -/
def colVals (df : DataFrame) (j : ℕ) : List Cell :=
  df.rows.map (fun r => r.getD j none)

/-- Helper for `uniqueList`: drop the values already seen. -/
def uniqueAux (seen : List Cell) : List Cell → List Cell
  | [] => []
  | a :: l => if a ∈ seen then uniqueAux seen l else a :: uniqueAux (a :: seen) l

/-- `pandas.Series.unique`: distinct values in first-appearance order. -/
def uniqueList (s : List Cell) : List Cell := uniqueAux [] s

/-- `np.nanmean`: mean of the non-missing entries, `NaN` when all missing. -/
def nanmean (xs : List Cell) : Cell :=
  let vs := xs.filterMap id
  if vs.isEmpty then none else some (vs.sum / (vs.length : ℚ))

/-- The boolean row mask `(dFrame[siteCol] == site) & (dFrame[classCol] == cls)`
evaluated at one row. -/
def rowMask (sj cj : ℕ) (s k : Cell) (r : List Cell) : Bool :=
  eqCell (r.getD sj none) s && eqCell (r.getD cj none) k

/-- `np.nanmean(data.iloc[:, col][idx])`: the group mean of column `j`
restricted to the (site, class) mask. -/
def groupMean (rows : List (List Cell)) (sj cj j : ℕ) (s k : Cell) : Cell :=
  nanmean ((rows.filter (rowMask sj cj s k)).map (fun r => r.getD j none))

/-- Body of the innermost loop of `classfill`: for one (site, class) pair and
one feature column, if the group has any missing entry in that column, replace
each such entry by the group mean of the column. -/
def fillColStep (sj cj : ℕ) (s k : Cell) (j : ℕ)
    (rows : List (List Cell)) : List (List Cell) :=
  let grp := rows.filter (rowMask sj cj s k)
  if grp.any (fun r => (r.getD j none).isNone) then
    let m := nanmean (grp.map (fun r => r.getD j none))
    rows.map (fun r =>
      if rowMask sj cj s k r && (r.getD j none).isNone then r.set j m else r)
  else rows

/-- The `for col in range(len(data.columns))` loop for one (site, class) pair. -/
def fillPairStep (sj cj : ℕ) (featCols : List ℕ) (p : Cell × Cell)
    (rows : List (List Cell)) : List (List Cell) :=
  featCols.foldl (fun rs j => fillColStep sj cj p.1 p.2 j rs) rows

/-- The `for site / for cls` double loop, flattened over the pair list. -/
def fillLoop (sj cj : ℕ) (featCols : List ℕ) (pairs : List (Cell × Cell))
    (rows : List (List Cell)) : List (List Cell) :=
  pairs.foldl (fun rs p => fillPairStep sj cj featCols p rs) rows

/-- The (site, class) pairs in the code's enumeration order:
sites in the outer loop, classes in the inner loop. -/
def pairProduct (sites classes : List Cell) : List (Cell × Cell) :=
  sites.flatMap (fun s => classes.map (fun k => (s, k)))

/-- `np.argmin` helpers: minimum of a nonempty `List ℕ` (`0` on `[]`). -/
def listMinN : List ℕ → ℕ
  | [] => 0
  | x :: l => l.foldl Nat.min x

/-- Maximum of a nonempty `List ℕ` (`0` on `[]`). -/
def listMaxN : List ℕ → ℕ
  | [] => 0
  | x :: l => l.foldl Nat.max x

/-- Index of the first occurrence of `target` (length of the list if absent). -/
def firstIdxN (target : ℕ) : List ℕ → ℕ
  | [] => 0
  | x :: l => if x = target then 0 else firstIdxN target l + 1

/-- `np.argmin`: index of the first occurrence of the minimum. -/
def argminN (xs : List ℕ) : ℕ := firstIdxN (listMinN xs) xs

/-- `np.argmax`: index of the first occurrence of the maximum. -/
def argmaxN (xs : List ℕ) : ℕ := firstIdxN (listMaxN xs) xs

namespace enigmatransforms

/-- `classfill` from `enigmalibrary/enigmatransforms.py`: fill the missing
entries of the feature-range columns with the mean of the non-missing entries
of the same column within the same (site, class) group. -/
def classfill (dFrame : DataFrame) (classCol siteCol : String)
    (idxRange : String × String) : Except TransformError DataFrame :=
  match colIndex dFrame classCol with
  | none => .error .invalidColumn
  | some cj =>
    match colIndex dFrame siteCol with
    | none => .error .invalidColumn
    | some sj =>
      match colIndex dFrame idxRange.1, colIndex dFrame idxRange.2 with
      | some ia, some ib =>
        let uniqClass := uniqueList (colVals dFrame cj)
        let uniqSites := uniqueList (colVals dFrame sj)
        let featCols := List.range' ia (ib + 1 - ia)
        .ok { dFrame with
              rows := fillLoop sj cj featCols
                        (pairProduct uniqSites uniqClass) dFrame.rows }
      | _, _ => .error .invalidColumn

/-- `minorityclass` from `enigmalibrary/enigmatransforms.py`: the least
frequent class label and the count gap to the most frequent one. -/
def minorityclass (dFrame : DataFrame) (classCol : String) :
    Except TransformError (Cell × ℤ) :=
  match colIndex dFrame classCol with
  | none => .error .invalidColumn
  | some cj =>
    let series := colVals dFrame cj
    let uniqClass := uniqueList series
    if uniqClass.isEmpty then .error .valueError
    else
      let nClass := uniqClass.map (fun v => series.countP (fun x => eqCell x v))
      let minorIdx := argminN nClass
      let majorIdx := argmaxN nClass
      .ok (uniqClass.getD minorIdx none,
           (nClass.getD majorIdx 0 : ℤ) - (nClass.getD minorIdx 0 : ℤ))

end enigmatransforms

namespace enigmatransformations

/-- `classfill` from `transformations/enigmatransformations.py`.  The module
text is a verbatim copy of the `enigmalibrary` one, but the module has
no import statements, so `np` is unresolved.  Execution proceeds through the
column lookups (`KeyError` as before, nothing uses `np` there), extracts the
feature block, and enters the three nested loops; the first `np.` expression
is `np.sum(nanIdx_i)` in the innermost body, evaluated on the very first
innermost iteration — i.e. exactly when there is at least one site, at least
one class and at least one feature column — and it raises `NameError` before
any cell has been written.  When some loop is empty the body never runs, the
write-back re-assigns the untouched block, and the unchanged frame is
returned. -/
def classfill (dFrame : DataFrame) (classCol siteCol : String)
    (idxRange : String × String) : Except TransformError DataFrame :=
  match colIndex dFrame classCol with
  | none => .error .invalidColumn
  | some cj =>
    match colIndex dFrame siteCol with
    | none => .error .invalidColumn
    | some sj =>
      match colIndex dFrame idxRange.1, colIndex dFrame idxRange.2 with
      | some ia, some ib =>
        let uniqClass := uniqueList (colVals dFrame cj)
        let uniqSites := uniqueList (colVals dFrame sj)
        let featCols := List.range' ia (ib + 1 - ia)
        if uniqSites.isEmpty || uniqClass.isEmpty || featCols.isEmpty then
          .ok dFrame
        else .error .nameError
      | _, _ => .error .invalidColumn

/-- `minorityclass` from `transformations/enigmatransformations.py`.  With the
module's missing numpy import, the call `np.zeros(...)` on the line right
after `unique()` raises `NameError` on every invocation that survives the
class-column lookup, before any result can be computed. -/
def minorityclass (dFrame : DataFrame) (classCol : String) :
    Except TransformError (Cell × ℤ) :=
  match colIndex dFrame classCol with
  | none => .error .invalidColumn
  | some _ => .error .nameError

end enigmatransformations

/-- Spec-side count list: the number of occurrences of each distinct value of
a class column, in first-appearance order. -/
def classCounts (s : List Cell) : List ℕ :=
  (uniqueList s).map (fun v => s.count v)

/-- Spec-side index of the first occurrence of a value in a column. -/
def firstOccIdx (s : List Cell) (v : Cell) : ℕ :=
  match s with
  | [] => 0
  | x :: l => if x = v then 0 else firstOccIdx l v + 1

/-- Set each still-missing cell of `r` at the positions `js` to `m j`. -/
def setMissing (m : ℕ → Cell) (js : List ℕ) (r : List Cell) : List Cell :=
  js.foldl (fun row j => if (row.getD j none).isNone then row.set j (m j) else row) r

/-- Per-row description of one `fillPairStep`: a matching row has each of its
missing feature cells set to the group mean taken over the initial `rows`. -/
def pairFillRow (rows : List (List Cell)) (sj cj : ℕ) (s k : Cell)
    (featCols : List ℕ) (r : List Cell) : List Cell :=
  if rowMask sj cj s k r then
    setMissing (fun j => groupMean rows sj cj j s k) featCols r
  else r

/-- Per-row description of the whole `fillLoop`: the (unique) matching pair,
if listed, fills the row's missing feature cells from the initial `rows`. -/
def loopFillRow (rows : List (List Cell)) (sj cj : ℕ) (featCols : List ℕ)
    (pairs : List (Cell × Cell)) (r : List Cell) : List Cell :=
  match pairs.find? (fun p => rowMask sj cj p.1 p.2 r) with
  | none => r
  | some p => pairFillRow rows sj cj p.1 p.2 featCols r

/-! ## Basic facts about cells, masks and list access -/

lemma eqCell_eq {a b : Cell} (h : eqCell a b = true) : a = b := by
  cases a <;> cases b <;> simp_all [eqCell]

lemma eqCell_ne_none {a b : Cell} (h : eqCell a b = true) : a ≠ none ∧ b ≠ none := by
  cases a <;> cases b <;> simp_all [eqCell]

lemma eqCell_self {a : Cell} (h : a ≠ none) : eqCell a a = true := by
  cases a <;> simp_all [eqCell]

lemma rowMask_eq {sj cj : ℕ} {s k : Cell} {r : List Cell}
    (h : rowMask sj cj s k r = true) :
    r.getD sj none = s ∧ r.getD cj none = k ∧ s ≠ none ∧ k ≠ none := by
  rcases Bool.and_eq_true .. ▸ h with ⟨h1, h2⟩
  refine ⟨eqCell_eq h1, eqCell_eq h2, ?_, ?_⟩
  · exact (eqCell_ne_none h1).2 ∘ fun hn => (eqCell_eq h1 ▸ hn : s = none) ▸ rfl
  · exact (eqCell_ne_none h2).2

lemma rowMask_unique {sj cj : ℕ} {p q : Cell × Cell} {r : List Cell}
    (hp : rowMask sj cj p.1 p.2 r = true) (hq : rowMask sj cj q.1 q.2 r = true) :
    p = q := by
  obtain ⟨hp1, hp2, -, -⟩ := rowMask_eq hp
  obtain ⟨hq1, hq2, -, -⟩ := rowMask_eq hq
  exact Prod.ext (hp1 ▸ hq1) (hp2 ▸ hq2)

lemma getD_set_ne (l : List Cell) {j t : ℕ} (v : Cell) (h : j ≠ t) :
    (l.set j v).getD t none = l.getD t none := by
  simp [List.getD_eq_getElem?_getD, List.getElem?_set_ne h]

lemma getD_set_self (l : List Cell) {j : ℕ} (v : Cell) (h : j < l.length) :
    (l.set j v).getD j none = v := by
  simp [List.getD_eq_getElem?_getD, List.getElem?_set_self h]

lemma set_getD_self (l : List Cell) (j : ℕ) : l.set j (l.getD j none) = l := by
  rcases Nat.lt_or_ge j l.length with h | h
  · apply List.ext_getElem?
    intro n
    rcases eq_or_ne j n with rfl | hne
    · simp [List.getElem?_set_self h, List.getD_eq_getElem?_getD,
        List.getElem?_eq_getElem h]
    · simp [List.getElem?_set_ne hne]
  · rw [List.set_eq_of_length_le h]

lemma getD_map_rows (rows : List (List Cell)) (f : List Cell → List Cell)
    {i : ℕ} (h : i < rows.length) :
    (rows.map f).getD i [] = f (rows.getD i []) := by
  simp [List.getD_eq_getElem?_getD, List.getElem?_map,
    List.getElem?_eq_getElem h, List.getElem?_eq_getElem (l := rows.map f)
      (by simpa using h)]

/-! ## `uniqueList` -/

lemma mem_uniqueAux {a : Cell} :
    ∀ {s seen : List Cell}, a ∈ uniqueAux seen s ↔ a ∈ s ∧ a ∉ seen := by
  intro s
  induction s with
  | nil => intro seen; simp [uniqueAux]
  | cons x l ih =>
    intro seen
    by_cases hx : x ∈ seen
    · rw [uniqueAux, if_pos hx, ih]
      constructor
      · rintro ⟨h1, h2⟩; exact ⟨.tail _ h1, h2⟩
      · rintro ⟨h1, h2⟩
        rcases List.mem_cons.1 h1 with rfl | h1
        · exact absurd hx h2
        · exact ⟨h1, h2⟩
    · rw [uniqueAux, if_neg hx]
      constructor
      · intro h
        rcases List.mem_cons.1 h with rfl | h
        · exact ⟨List.mem_cons_self .., hx⟩
        · rw [ih] at h
          exact ⟨.tail _ h.1, fun hs => h.2 (.tail _ hs)⟩
      · rintro ⟨h1, h2⟩
        rcases List.mem_cons.1 h1 with rfl | h1
        · exact List.mem_cons_self ..
        · rcases eq_or_ne a x with rfl | hne
          · exact List.mem_cons_self ..
          · exact List.mem_cons_of_mem _ (ih.2 ⟨h1,
              fun hs => (List.mem_cons.1 hs).elim hne h2⟩)

lemma mem_uniqueList {a : Cell} {s : List Cell} : a ∈ uniqueList s ↔ a ∈ s := by
  rw [uniqueList, mem_uniqueAux]; simp

lemma uniqueAux_nodup : ∀ (s seen : List Cell), (uniqueAux seen s).Nodup := by
  intro s
  induction s with
  | nil => intro seen; simp [uniqueAux]
  | cons x l ih =>
    intro seen
    by_cases hx : x ∈ seen
    · rw [uniqueAux, if_pos hx]; exact ih seen
    · rw [uniqueAux, if_neg hx]
      refine List.nodup_cons.2 ⟨fun hmem => ?_, ih (x :: seen)⟩
      exact (mem_uniqueAux.1 hmem).2 (List.mem_cons_self ..)

lemma uniqueList_nodup (s : List Cell) : (uniqueList s).Nodup :=
  uniqueAux_nodup s []

lemma uniqueList_ne_nil {s : List Cell} (h : s ≠ []) : uniqueList s ≠ [] := by
  cases s with
  | nil => exact absurd rfl h
  | cons x l =>
    intro hu
    have : x ∈ uniqueList (x :: l) := mem_uniqueList.2 (List.mem_cons_self ..)
    rw [hu] at this
    exact absurd this (List.not_mem_nil x)

/-! ## `pairProduct` -/

lemma mem_pairProduct {p : Cell × Cell} {sites classes : List Cell} :
    p ∈ pairProduct sites classes ↔ p.1 ∈ sites ∧ p.2 ∈ classes := by
  obtain ⟨s, k⟩ := p
  simp only [pairProduct, List.mem_flatMap, List.mem_map, Prod.mk.injEq]
  constructor
  · rintro ⟨a, ha, k', hk', rfl, rfl⟩; exact ⟨ha, hk'⟩
  · rintro ⟨hs, hk⟩; exact ⟨s, hs, k, hk, rfl, rfl⟩

lemma pairProduct_nodup {sites classes : List Cell}
    (h1 : sites.Nodup) (h2 : classes.Nodup) :
    (pairProduct sites classes).Nodup := by
  induction sites with
  | nil => simp [pairProduct]
  | cons s rest ih =>
    rw [List.nodup_cons] at h1
    have hrest := ih h1.2
    rw [pairProduct, List.flatMap_cons]
    refine List.Nodup.append ?_ hrest ?_
    · exact h2.map (fun a b hab => by simpa using hab)
    · intro p hp hp'
      have h1p := (List.mem_map.1 hp)
      obtain ⟨k, -, rfl⟩ := h1p
      have := (mem_pairProduct.1 hp').1
      exact h1.1 this

/-! ## Minimum, maximum, argmin/argmax -/

lemma foldl_min_mem : ∀ (l : List ℕ) (x : ℕ), l.foldl Nat.min x ∈ x :: l := by
  intro l
  induction l with
  | nil => intro x; simp
  | cons a l ih =>
    intro x
    rw [List.foldl_cons]
    rcases List.mem_cons.1 (ih (Nat.min x a)) with h | h
    · rw [h]
      by_cases hle : x ≤ a
      · have hxa : Nat.min x a = x := by simp [Nat.min_def, hle]
        rw [hxa]; exact List.mem_cons_self ..
      · have hxa : Nat.min x a = a := by simp [Nat.min_def, hle]
        rw [hxa]; exact List.mem_cons_of_mem _ (List.mem_cons_self ..)
    · exact List.mem_cons_of_mem _ (List.mem_cons_of_mem _ h)

lemma foldl_min_le : ∀ (l : List ℕ) (x y : ℕ), y ∈ x :: l → l.foldl Nat.min x ≤ y := by
  intro l
  induction l with
  | nil => intro x y hy; simp_all
  | cons a l ih =>
    intro x y hy
    rw [List.foldl_cons]
    have hinit : l.foldl Nat.min (Nat.min x a) ≤ Nat.min x a :=
      ih _ _ (List.mem_cons_self ..)
    rcases List.mem_cons.1 hy with rfl | hy
    · exact hinit.trans (Nat.min_le_left ..)
    · rcases List.mem_cons.1 hy with rfl | hy
      · exact hinit.trans (Nat.min_le_right ..)
      · exact ih _ _ (List.mem_cons_of_mem _ hy)

lemma foldl_max_mem : ∀ (l : List ℕ) (x : ℕ), l.foldl Nat.max x ∈ x :: l := by
  intro l
  induction l with
  | nil => intro x; simp
  | cons a l ih =>
    intro x
    rw [List.foldl_cons]
    rcases List.mem_cons.1 (ih (Nat.max x a)) with h | h
    · rw [h]
      by_cases hle : x ≤ a
      · have hxa : Nat.max x a = a := by simp [Nat.max_def, hle]
        rw [hxa]; exact List.mem_cons_of_mem _ (List.mem_cons_self ..)
      · have hxa : Nat.max x a = x := by simp [Nat.max_def, hle]
        rw [hxa]; exact List.mem_cons_self ..
    · exact List.mem_cons_of_mem _ (List.mem_cons_of_mem _ h)

lemma le_foldl_max : ∀ (l : List ℕ) (x y : ℕ), y ∈ x :: l → y ≤ l.foldl Nat.max x := by
  intro l
  induction l with
  | nil => intro x y hy; simp_all
  | cons a l ih =>
    intro x y hy
    rw [List.foldl_cons]
    have hinit : Nat.max x a ≤ l.foldl Nat.max (Nat.max x a) :=
      ih _ _ (List.mem_cons_self ..)
    rcases List.mem_cons.1 hy with rfl | hy
    · exact (Nat.le_max_left ..).trans hinit
    · rcases List.mem_cons.1 hy with rfl | hy
      · exact (Nat.le_max_right ..).trans hinit
      · exact ih _ _ (List.mem_cons_of_mem _ hy)

lemma listMinN_mem {xs : List ℕ} (h : xs ≠ []) : listMinN xs ∈ xs := by
  cases xs with
  | nil => exact absurd rfl h
  | cons x l => exact foldl_min_mem l x

lemma listMinN_le {xs : List ℕ} {y : ℕ} (h : y ∈ xs) : listMinN xs ≤ y := by
  cases xs with
  | nil => simp_all
  | cons x l => exact foldl_min_le l x y h

lemma listMaxN_mem {xs : List ℕ} (h : xs ≠ []) : listMaxN xs ∈ xs := by
  cases xs with
  | nil => exact absurd rfl h
  | cons x l => exact foldl_max_mem l x

lemma le_listMaxN {xs : List ℕ} {y : ℕ} (h : y ∈ xs) : y ≤ listMaxN xs := by
  cases xs with
  | nil => simp_all
  | cons x l => exact le_foldl_max l x y h

lemma firstIdxN_lt {t : ℕ} : ∀ {xs : List ℕ}, t ∈ xs → firstIdxN t xs < xs.length := by
  intro xs
  induction xs with
  | nil => simp
  | cons x l ih =>
    intro h
    by_cases hx : x = t
    · simp [firstIdxN, hx]
    · rw [firstIdxN, if_neg hx]
      have : t ∈ l := by
        rcases List.mem_cons.1 h with rfl | h
        · exact absurd rfl hx
        · exact h
      simpa using Nat.succ_lt_succ (ih this)

lemma getD_firstIdxN {t : ℕ} : ∀ {xs : List ℕ}, t ∈ xs →
    xs.getD (firstIdxN t xs) 0 = t := by
  intro xs
  induction xs with
  | nil => simp
  | cons x l ih =>
    intro h
    by_cases hx : x = t
    · simp [firstIdxN, hx]
    · rw [firstIdxN, if_neg hx, List.getD_cons_succ]
      refine ih ?_
      rcases List.mem_cons.1 h with rfl | h
      · exact absurd rfl hx
      · exact h

lemma find_of_firstIdxN_map (f : Cell → ℕ) {u : List Cell} {t : ℕ}
    (h : t ∈ u.map f) :
    u.find? (fun v => decide (f v = t))
      = some (u.getD (firstIdxN t (u.map f)) none) := by
  induction u with
  | nil => simp at h
  | cons a u ih =>
    rw [List.map_cons] at h ⊢
    by_cases ha : f a = t
    · rw [firstIdxN, if_pos ha, List.getD_cons_zero,
        List.find?_cons_of_pos _ (by simpa using ha)]
    · rw [firstIdxN, if_neg ha, List.getD_cons_succ,
        List.find?_cons_of_neg _ (by simpa using ha)]
      refine ih ?_
      rcases List.mem_cons.1 h with h' | h'
      · exact absurd h'.symm ha
      · exact h'

/-! ## Counting -/

lemma countP_eqCell {s : List Cell} {v : Cell} (hv : v ≠ none)
    (hs : ∀ x ∈ s, x ≠ none) :
    s.countP (fun x => eqCell x v) = s.count v := by
  induction s with
  | nil => simp
  | cons a l ih =>
    have ha : a ≠ none := hs a (List.mem_cons_self ..)
    rw [List.countP_cons, List.count_cons,
      ih (fun x hx => hs x (List.mem_cons_of_mem _ hx))]
    congr 1
    obtain ⟨x, rfl⟩ := Option.ne_none_iff_exists'.1 ha
    obtain ⟨y, rfl⟩ := Option.ne_none_iff_exists'.1 hv
    by_cases hxy : x = y <;> simp [eqCell, hxy]

/-! ## `setMissing`: the per-row fill at a set of column positions -/

lemma setMissing_nil (m : ℕ → Cell) (r : List Cell) : setMissing m [] r = r := rfl

lemma setMissing_cons (m : ℕ → Cell) (j : ℕ) (js : List ℕ) (r : List Cell) :
    setMissing m (j :: js) r
      = setMissing m js (if (r.getD j none).isNone then r.set j (m j) else r) := rfl

lemma setMissing_length (m : ℕ → Cell) :
    ∀ (js : List ℕ) (r : List Cell), (setMissing m js r).length = r.length := by
  intro js
  induction js with
  | nil => intro r; rfl
  | cons j js ih =>
    intro r
    rw [setMissing_cons, ih]
    split <;> simp

lemma setMissing_congr {m m' : ℕ → Cell} {js : List ℕ}
    (h : ∀ j ∈ js, m j = m' j) (r : List Cell) :
    setMissing m js r = setMissing m' js r := by
  induction js generalizing r with
  | nil => rfl
  | cons j js ih =>
    rw [setMissing_cons, setMissing_cons, h j (List.mem_cons_self ..),
      ih (fun j hj => h j (List.mem_cons_of_mem _ hj))]

lemma setMissing_getD (m : ℕ → Cell) :
    ∀ (js : List ℕ) (r : List Cell) (t : ℕ), js.Nodup →
    (setMissing m js r).getD t none
      = if t ∈ js ∧ r.getD t none = none ∧ t < r.length then m t
        else r.getD t none := by
  intro js
  induction js with
  | nil => intro r t _; simp [setMissing_nil]
  | cons j js ih =>
    intro r t hnd
    obtain ⟨hj, hnd'⟩ := List.nodup_cons.1 hnd
    rw [setMissing_cons]
    set r1 := if (r.getD j none).isNone then r.set j (m j) else r with hr1
    have hlen1 : r1.length = r.length := by
      rw [hr1]; split <;> simp
    rcases eq_or_ne t j with rfl | hne
    · rw [ih r1 t hnd', if_neg (fun hc => hj hc.1)]
      by_cases hmiss : (r.getD t none).isNone
      · rw [hr1, if_pos hmiss]
        rcases Nat.lt_or_ge t r.length with hlt | hge
        · rw [getD_set_self _ _ hlt,
            if_pos ⟨List.mem_cons_self .., Option.isNone_iff_eq_none.1 hmiss, hlt⟩]
        · rw [List.set_eq_of_length_le hge,
            if_neg (fun hc => Nat.not_lt.2 hge hc.2.2)]
      · rw [hr1, if_neg hmiss,
          if_neg (fun hc => hmiss (Option.isNone_iff_eq_none.2 hc.2.1))]
    · have hr1t : r1.getD t none = r.getD t none := by
        rw [hr1]
        by_cases h : (r.getD j none).isNone
        · rw [if_pos h]; exact getD_set_ne _ _ hne.symm
        · rw [if_neg h]
      rw [ih r1 t hnd', hr1t, hlen1]
      by_cases hc : t ∈ js ∧ r.getD t none = none ∧ t < r.length
      · rw [if_pos hc, if_pos ⟨List.mem_cons_of_mem _ hc.1, hc.2⟩]
      · rw [if_neg hc, if_neg ?_]
        rintro ⟨hmem, hrest⟩
        rcases List.mem_cons.1 hmem with rfl | hmem
        · exact hne rfl
        · exact hc ⟨hmem, hrest⟩

lemma setMissing_getD_not_none (m : ℕ → Cell) {js : List ℕ} {r : List Cell}
    {t : ℕ} (hnd : js.Nodup) (h : r.getD t none ≠ none) :
    (setMissing m js r).getD t none = r.getD t none := by
  rw [setMissing_getD m js r t hnd, if_neg (fun hc => h hc.2.1)]

/-! ## Characterising one `fillColStep` -/

lemma map_eq_self_of {α : Type _} {f : α → α} {l : List α}
    (h : ∀ a ∈ l, f a = a) : l.map f = l := by
  have h' : ∀ a ∈ l, f a = id a := h
  rw [List.map_congr_left h', List.map_id]

lemma fillColStep_eq_map (sj cj : ℕ) (s k : Cell) (j : ℕ)
    (rows : List (List Cell)) :
    fillColStep sj cj s k j rows
      = rows.map (fun r =>
          if rowMask sj cj s k r && (r.getD j none).isNone
          then r.set j (groupMean rows sj cj j s k) else r) := by
  rw [fillColStep]
  by_cases hg : ((rows.filter (rowMask sj cj s k)).any
      fun r => (r.getD j none).isNone) = true
  · rw [if_pos hg]; rfl
  · rw [if_neg hg]
    have hall : ∀ x ∈ rows.filter (rowMask sj cj s k),
        ¬ ((x.getD j none).isNone = true) := by
      rw [← List.any_eq_false]; exact Bool.eq_false_iff.2 hg
    symm
    apply map_eq_self_of
    intro r hr
    by_cases hmask : rowMask sj cj s k r = true
    · have hno := hall r (List.mem_filter.2 ⟨hr, hmask⟩)
      rw [if_neg (fun hc => hno (Bool.and_eq_true .. ▸ hc).2)]
    · rw [if_neg (fun hc => hmask (Bool.and_eq_true .. ▸ hc).1)]

lemma colFill_mask (sj cj : ℕ) (s k : Cell) (j : ℕ) (v : Cell)
    (q1 q2 : Cell) (r : List Cell) :
    rowMask sj cj q1 q2
        (if rowMask sj cj s k r && (r.getD j none).isNone
         then r.set j v else r)
      = rowMask sj cj q1 q2 r := by
  by_cases hc : (rowMask sj cj s k r && (r.getD j none).isNone) = true
  · rw [if_pos hc]
    rcases Bool.and_eq_true .. ▸ hc with ⟨hm, hn⟩
    obtain ⟨hsj, hcj, hs, hk⟩ := rowMask_eq hm
    have hjn : r.getD j none = none := Option.isNone_iff_eq_none.1 hn
    have hsje : j ≠ sj := fun he => hs (by rw [← hsj, ← he, hjn])
    have hcje : j ≠ cj := fun he => hk (by rw [← hcj, ← he, hjn])
    rw [rowMask, rowMask, getD_set_ne _ _ hsje, getD_set_ne _ _ hcje]
  · rw [if_neg hc]

lemma colFill_getD_ne (sj cj : ℕ) (s k : Cell) (j : ℕ) (v : Cell)
    {t : ℕ} (hne : t ≠ j) (r : List Cell) :
    (if rowMask sj cj s k r && (r.getD j none).isNone
     then r.set j v else r).getD t none = r.getD t none := by
  split
  · exact getD_set_ne _ _ (Ne.symm hne)
  · rfl

lemma colFill_id_of_not_none (sj cj : ℕ) (s k : Cell) (j : ℕ) (v : Cell)
    {r : List Cell} (h : r.getD j none ≠ none) :
    (if rowMask sj cj s k r && (r.getD j none).isNone
     then r.set j v else r) = r := by
  rw [if_neg (fun hc =>
    h (Option.isNone_iff_eq_none.1 (Bool.and_eq_true .. ▸ hc).2))]

lemma colFill_id_of_not_mask (sj cj : ℕ) (s k : Cell) (j : ℕ) (v : Cell)
    {r : List Cell} (h : ¬ rowMask sj cj s k r = true) :
    (if rowMask sj cj s k r && (r.getD j none).isNone
     then r.set j v else r) = r := by
  rw [if_neg (fun hc => h (Bool.and_eq_true .. ▸ hc).1)]

lemma groupMean_fillColStep (sj cj : ℕ) (s k q1 q2 : Cell) (j j' : ℕ)
    (rows : List (List Cell)) (hne : (q1, q2) ≠ (s, k) ∨ j' ≠ j) :
    groupMean (fillColStep sj cj s k j rows) sj cj j' q1 q2
      = groupMean rows sj cj j' q1 q2 := by
  rw [fillColStep_eq_map]
  set f := fun r =>
    if rowMask sj cj s k r && (r.getD j none).isNone
    then r.set j (groupMean rows sj cj j s k) else r with hf
  rw [groupMean, groupMean, List.filter_map]
  have hfil : List.filter (rowMask sj cj q1 q2 ∘ f) rows
      = List.filter (rowMask sj cj q1 q2) rows :=
    List.filter_congr (fun r _ => by
      show rowMask sj cj q1 q2 (f r) = rowMask sj cj q1 q2 r
      rw [hf]; exact colFill_mask ..)
  rw [hfil, List.map_map]
  congr 1
  apply List.map_congr_left
  intro r hr
  have hq : rowMask sj cj q1 q2 r = true := (List.mem_filter.1 hr).2
  rcases hne with hne | hne
  · by_cases hm : rowMask sj cj s k r = true
    · exact absurd (rowMask_unique (p := (q1, q2)) (q := (s, k)) hq hm) hne
    · show (f r).getD j' none = r.getD j' none
      have hfr : f r = r := by
        simp only [hf]
        exact colFill_id_of_not_mask _ _ _ _ _ _ hm
      rw [hfr]
  · show (f r).getD j' none = r.getD j' none
    simp only [hf]
    exact colFill_getD_ne _ _ _ _ _ _ hne r

/-! ## Characterising one `fillPairStep` -/

lemma pairFillRow_nil (rows : List (List Cell)) (sj cj : ℕ) (s k : Cell)
    (r : List Cell) : pairFillRow rows sj cj s k [] r = r := by
  rw [pairFillRow]; split <;> rfl

lemma pairFillRow_length (rows : List (List Cell)) (sj cj : ℕ) (s k : Cell)
    (featCols : List ℕ) (r : List Cell) :
    (pairFillRow rows sj cj s k featCols r).length = r.length := by
  rw [pairFillRow]
  split
  · exact setMissing_length _ _ _
  · rfl

lemma pairFillRow_mask (rows : List (List Cell)) (sj cj : ℕ) (s k : Cell)
    {featCols : List ℕ} (hfc : featCols.Nodup) (q1 q2 : Cell) (r : List Cell) :
    rowMask sj cj q1 q2 (pairFillRow rows sj cj s k featCols r)
      = rowMask sj cj q1 q2 r := by
  rw [pairFillRow]
  by_cases hm : rowMask sj cj s k r = true
  · rw [if_pos hm]
    obtain ⟨hsj, hcj, hs, hk⟩ := rowMask_eq hm
    have h1 : (setMissing (fun j => groupMean rows sj cj j s k) featCols r).getD
        sj none = r.getD sj none :=
      setMissing_getD_not_none _ hfc (by rw [hsj]; exact hs)
    have h2 : (setMissing (fun j => groupMean rows sj cj j s k) featCols r).getD
        cj none = r.getD cj none :=
      setMissing_getD_not_none _ hfc (by rw [hcj]; exact hk)
    rw [rowMask, rowMask, h1, h2]
  · rw [if_neg hm]

lemma fillPairStep_eq_map (sj cj : ℕ) (s k : Cell) {featCols : List ℕ}
    (hfc : featCols.Nodup) (rows : List (List Cell)) :
    fillPairStep sj cj featCols (s, k) rows
      = rows.map (pairFillRow rows sj cj s k featCols) := by
  induction featCols generalizing rows with
  | nil =>
    symm
    apply map_eq_self_of
    intro r _
    exact pairFillRow_nil ..
  | cons j rest ih =>
    obtain ⟨hj, hrest⟩ := List.nodup_cons.1 hfc
    have hstep : fillPairStep sj cj (j :: rest) (s, k) rows
        = fillPairStep sj cj rest (s, k) (fillColStep sj cj s k j rows) := rfl
    set rows1 := fillColStep sj cj s k j rows with hrows1
    rw [hstep, ih hrest]
    have hmean : ∀ j' ∈ rest,
        groupMean rows1 sj cj j' s k = groupMean rows sj cj j' s k := by
      intro j' hj'
      rw [hrows1]
      exact groupMean_fillColStep sj cj s k s k j j' rows
        (Or.inr (fun he => hj (he ▸ hj')))
    have hpfr : ∀ r, pairFillRow rows1 sj cj s k rest r
        = pairFillRow rows sj cj s k rest r := by
      intro r
      rw [pairFillRow, pairFillRow]
      split
      · exact setMissing_congr (fun j' hj' => hmean j' hj') r
      · rfl
    rw [List.map_congr_left (fun r _ => hpfr r), hrows1, fillColStep_eq_map,
      List.map_map]
    apply List.map_congr_left
    intro r hr
    show pairFillRow rows sj cj s k rest
        (if rowMask sj cj s k r && (r.getD j none).isNone
         then r.set j (groupMean rows sj cj j s k) else r)
      = pairFillRow rows sj cj s k (j :: rest) r
    by_cases hm : rowMask sj cj s k r = true
    · have hcolf : (if rowMask sj cj s k r && (r.getD j none).isNone
          then r.set j (groupMean rows sj cj j s k) else r)
          = (if (r.getD j none).isNone
             then r.set j (groupMean rows sj cj j s k) else r) := by
        rw [hm, Bool.true_and]
      rw [hcolf]
      have hmaskpres : rowMask sj cj s k
          (if (r.getD j none).isNone
           then r.set j (groupMean rows sj cj j s k) else r) = true := by
        rw [← hcolf, colFill_mask]; exact hm
      rw [pairFillRow, if_pos hmaskpres, pairFillRow, if_pos hm, setMissing_cons]
    · rw [colFill_id_of_not_mask _ _ _ _ _ _ hm, pairFillRow, pairFillRow,
        if_neg hm, if_neg hm]

/-! ## Characterising the whole `fillLoop` -/

lemma groupMean_fillPairStep (sj cj : ℕ) (p : Cell × Cell) (q1 q2 : Cell)
    (featCols : List ℕ) (j' : ℕ) (rows : List (List Cell))
    (hne : (q1, q2) ≠ p) :
    groupMean (fillPairStep sj cj featCols p rows) sj cj j' q1 q2
      = groupMean rows sj cj j' q1 q2 := by
  induction featCols generalizing rows with
  | nil => rfl
  | cons j rest ih =>
    have hstep : fillPairStep sj cj (j :: rest) p rows
        = fillPairStep sj cj rest p (fillColStep sj cj p.1 p.2 j rows) := rfl
    rw [hstep, ih, groupMean_fillColStep]
    left
    rwa [Prod.mk.eta]

lemma find?_eq_of_unique {α : Type _} (p : α → Bool) (l₁ l₂ : List α)
    (huniq : ∀ a b, p a = true → p b = true → a = b)
    (hmem : ∀ a, a ∈ l₁ ↔ a ∈ l₂) :
    l₁.find? p = l₂.find? p := by
  cases h1 : l₁.find? p with
  | none =>
    cases h2 : l₂.find? p with
    | none => rfl
    | some b =>
      have hb := List.find?_some h2
      have hbmem := (hmem b).2 (List.mem_of_find?_eq_some h2)
      exact absurd hb (List.find?_eq_none.1 h1 b hbmem)
  | some a =>
    have ha := List.find?_some h1
    have hamem := (hmem a).1 (List.mem_of_find?_eq_some h1)
    cases h2 : l₂.find? p with
    | none => exact absurd ha (List.find?_eq_none.1 h2 a hamem)
    | some b => rw [huniq a b ha (List.find?_some h2)]

lemma find?_eq_some_of_unique {α : Type _} (p : α → Bool) (l : List α) (a : α)
    (huniq : ∀ x y, p x = true → p y = true → x = y)
    (hmem : a ∈ l) (hpa : p a = true) : l.find? p = some a := by
  cases h : l.find? p with
  | none => exact absurd hpa (List.find?_eq_none.1 h a hmem)
  | some b => rw [huniq b a (List.find?_some h) hpa]

lemma loopFillRow_mask (rows : List (List Cell)) (sj cj : ℕ)
    {featCols : List ℕ} (hfc : featCols.Nodup) (pairs : List (Cell × Cell))
    (q1 q2 : Cell) (r : List Cell) :
    rowMask sj cj q1 q2 (loopFillRow rows sj cj featCols pairs r)
      = rowMask sj cj q1 q2 r := by
  rw [loopFillRow]
  cases hf : pairs.find? (fun p => rowMask sj cj p.1 p.2 r) with
  | none => rfl
  | some p => exact pairFillRow_mask rows sj cj p.1 p.2 hfc q1 q2 r

lemma loopFillRow_length (rows : List (List Cell)) (sj cj : ℕ)
    (featCols : List ℕ) (pairs : List (Cell × Cell)) (r : List Cell) :
    (loopFillRow rows sj cj featCols pairs r).length = r.length := by
  rw [loopFillRow]
  cases hf : pairs.find? (fun p => rowMask sj cj p.1 p.2 r) with
  | none => rfl
  | some p => exact pairFillRow_length ..

lemma fillLoop_eq_map (sj cj : ℕ) {featCols : List ℕ} (hfc : featCols.Nodup)
    {pairs : List (Cell × Cell)} (hp : pairs.Nodup) (rows : List (List Cell)) :
    fillLoop sj cj featCols pairs rows
      = rows.map (loopFillRow rows sj cj featCols pairs) := by
  induction pairs generalizing rows with
  | nil =>
    symm
    apply map_eq_self_of
    intro r _
    rw [loopFillRow]
    rfl
  | cons p l ih =>
    obtain ⟨hpl, hl⟩ := List.nodup_cons.1 hp
    have hstep : fillLoop sj cj featCols (p :: l) rows
        = fillLoop sj cj featCols l (fillPairStep sj cj featCols p rows) := rfl
    set rows1 := fillPairStep sj cj featCols p rows with hrows1
    rw [hstep, ih hl]
    have hloop1 : ∀ r, loopFillRow rows1 sj cj featCols l r
        = loopFillRow rows sj cj featCols l r := by
      intro r
      rw [loopFillRow, loopFillRow]
      cases hf : l.find? (fun q => rowMask sj cj q.1 q.2 r) with
      | none => rfl
      | some q =>
        have hqmem := List.mem_of_find?_eq_some hf
        have hqp : q ≠ p := fun he => hpl (he ▸ hqmem)
        show pairFillRow rows1 sj cj q.1 q.2 featCols r
          = pairFillRow rows sj cj q.1 q.2 featCols r
        rw [pairFillRow, pairFillRow]
        split
        · apply setMissing_congr
          intro j' _
          rw [hrows1]
          exact groupMean_fillPairStep sj cj p q.1 q.2 featCols j' rows
            (by rwa [Prod.mk.eta])
        · rfl
    have hpp : rows1 = rows.map (pairFillRow rows sj cj p.1 p.2 featCols) := by
      rw [hrows1, ← fillPairStep_eq_map sj cj p.1 p.2 hfc rows, Prod.mk.eta]
    rw [List.map_congr_left (fun r _ => hloop1 r), hpp, List.map_map]
    apply List.map_congr_left
    intro r hr
    show loopFillRow rows sj cj featCols l
        (pairFillRow rows sj cj p.1 p.2 featCols r)
      = loopFillRow rows sj cj featCols (p :: l) r
    by_cases hm : rowMask sj cj p.1 p.2 r = true
    · have hfind : l.find? (fun q => rowMask sj cj q.1 q.2
          (pairFillRow rows sj cj p.1 p.2 featCols r)) = none := by
        apply List.find?_eq_none.2
        intro q hq hmq
        have hmq' : rowMask sj cj q.1 q.2 r = true := by
          rwa [pairFillRow_mask rows sj cj p.1 p.2 hfc q.1 q.2 r] at hmq
        exact hpl ((rowMask_unique (p := q) (q := p) hmq' hm) ▸ hq)
      rw [loopFillRow, hfind, loopFillRow,
        List.find?_cons_of_pos (p := fun q => rowMask sj cj q.1 q.2 r) l hm]
    · rw [pairFillRow, if_neg hm, loopFillRow, loopFillRow,
        List.find?_cons_of_neg (p := fun q => rowMask sj cj q.1 q.2 r) l
          (by simpa using hm)]

/-! ## `colIndex` -/

lemma colIndex_go_none {name : String} :
    ∀ {cs : List String} {n : ℕ}, colIndex.go name n cs = none ↔ name ∉ cs := by
  intro cs
  induction cs with
  | nil => intro n; simp [colIndex.go]
  | cons a cs ih =>
    intro n
    by_cases ha : a = name
    · simp [colIndex.go, ha]
    · rw [colIndex.go, if_neg ha, ih]
      simp [Ne.symm ha]

lemma colIndex_go_lt {name : String} :
    ∀ {cs : List String} {n i : ℕ}, colIndex.go name n cs = some i →
      i < n + cs.length := by
  intro cs
  induction cs with
  | nil => intro n i h; exact absurd h (by simp [colIndex.go])
  | cons a cs ih =>
    intro n i h
    by_cases ha : a = name
    · rw [colIndex.go, if_pos ha] at h
      cases h
      simp
    · rw [colIndex.go, if_neg ha] at h
      have := ih h
      simpa [Nat.add_right_comm, Nat.add_assoc] using this

lemma colIndex_eq_none {df : DataFrame} {name : String} :
    colIndex df name = none ↔ name ∉ df.cols := colIndex_go_none

lemma colIndex_lt {df : DataFrame} {name : String} {i : ℕ}
    (h : colIndex df name = some i) : i < df.cols.length := by
  have := colIndex_go_lt h
  simpa using this

/-! ## `classfill` at the top level -/

lemma classfill_shape {df : DataFrame} {c s lo hi : String} {cj sj ia ib : ℕ}
    (hc : colIndex df c = some cj) (hs : colIndex df s = some sj)
    (hlo : colIndex df lo = some ia) (hhi : colIndex df hi = some ib) :
    enigmatransforms.classfill df c s (lo, hi)
      = .ok ⟨df.cols,
          df.rows.map (loopFillRow df.rows sj cj (List.range' ia (ib + 1 - ia))
            (pairProduct (uniqueList (colVals df sj))
              (uniqueList (colVals df cj))))⟩ := by
  simp only [enigmatransforms.classfill, hc, hs, hlo, hhi]
  rw [fillLoop_eq_map sj cj (List.nodup_range' ia (ib + 1 - ia))
    (pairProduct_nodup (uniqueList_nodup _) (uniqueList_nodup _)) df.rows]

lemma classfill_ok_inv {df e : DataFrame} {c s : String} {rng : String × String}
    (h : enigmatransforms.classfill df c s rng = .ok e) :
    ∃ cj sj ia ib, colIndex df c = some cj ∧ colIndex df s = some sj ∧
      colIndex df rng.1 = some ia ∧ colIndex df rng.2 = some ib := by
  cases hc : colIndex df c with
  | none => simp [enigmatransforms.classfill, hc] at h
  | some cj =>
    cases hs : colIndex df s with
    | none => simp [enigmatransforms.classfill, hc, hs] at h
    | some sj =>
      cases hlo : colIndex df rng.1 with
      | none => simp [enigmatransforms.classfill, hc, hs, hlo] at h
      | some ia =>
        cases hhi : colIndex df rng.2 with
        | none => simp [enigmatransforms.classfill, hc, hs, hlo, hhi] at h
        | some ib => exact ⟨cj, sj, ia, ib, rfl, rfl, rfl, rfl⟩

lemma find?_pairs_of_mask {sj cj : ℕ} {pairs : List (Cell × Cell)}
    {r : List Cell} {p : Cell × Cell} (hmem : p ∈ pairs)
    (hm : rowMask sj cj p.1 p.2 r = true) :
    pairs.find? (fun q => rowMask sj cj q.1 q.2 r) = some p :=
  find?_eq_some_of_unique _ _ _ (fun _ _ hx hy => rowMask_unique hx hy) hmem hm

lemma loopFillRow_getD_matched (rows : List (List Cell)) (sj cj : ℕ)
    {featCols : List ℕ} (hfc : featCols.Nodup) {pairs : List (Cell × Cell)}
    {p : Cell × Cell} {r : List Cell} (hmem : p ∈ pairs)
    (hm : rowMask sj cj p.1 p.2 r = true) (t : ℕ) :
    (loopFillRow rows sj cj featCols pairs r).getD t none
      = if t ∈ featCols ∧ r.getD t none = none ∧ t < r.length
        then groupMean rows sj cj t p.1 p.2 else r.getD t none := by
  rw [loopFillRow, find?_pairs_of_mask hmem hm]
  show (pairFillRow rows sj cj p.1 p.2 featCols r).getD t none = _
  rw [pairFillRow, if_pos hm]
  exact setMissing_getD _ featCols r t hfc

lemma loopFillRow_unmatched (rows : List (List Cell)) (sj cj : ℕ)
    (featCols : List ℕ) {pairs : List (Cell × Cell)} {r : List Cell}
    (h : ∀ p ∈ pairs, ¬ rowMask sj cj p.1 p.2 r = true) :
    loopFillRow rows sj cj featCols pairs r = r := by
  rw [loopFillRow, List.find?_eq_none.2 h]

lemma loopFillRow_getD_not_none (rows : List (List Cell)) (sj cj : ℕ)
    {featCols : List ℕ} (hfc : featCols.Nodup) (pairs : List (Cell × Cell))
    {r : List Cell} {t : ℕ} (h : r.getD t none ≠ none) :
    (loopFillRow rows sj cj featCols pairs r).getD t none = r.getD t none := by
  rw [loopFillRow]
  cases hf : pairs.find? (fun q => rowMask sj cj q.1 q.2 r) with
  | none => rfl
  | some p =>
    show (pairFillRow rows sj cj p.1 p.2 featCols r).getD t none = _
    rw [pairFillRow]
    split
    · exact setMissing_getD_not_none _ hfc h
    · rfl

lemma loopFillRow_getD_not_feat (rows : List (List Cell)) (sj cj : ℕ)
    {featCols : List ℕ} (hfc : featCols.Nodup) (pairs : List (Cell × Cell))
    (r : List Cell) {t : ℕ} (h : t ∉ featCols) :
    (loopFillRow rows sj cj featCols pairs r).getD t none = r.getD t none := by
  rw [loopFillRow]
  cases hf : pairs.find? (fun q => rowMask sj cj q.1 q.2 r) with
  | none => rfl
  | some p =>
    show (pairFillRow rows sj cj p.1 p.2 featCols r).getD t none = _
    rw [pairFillRow]
    split
    · rw [setMissing_getD _ featCols r t hfc, if_neg (fun hc => h hc.1)]
    · rfl

/-! ## Claim theorems -/

lemma colIndex_mem {df : DataFrame} {name : String} {i : ℕ}
    (h : colIndex df name = some i) : name ∈ df.cols := by
  by_contra hmem
  rw [colIndex_eq_none.2 hmem] at h
  cases h

lemma colIndex_of_mem {df : DataFrame} {name : String} (h : name ∈ df.cols) :
    ∃ i, colIndex df name = some i := by
  cases hc : colIndex df name with
  | none => exact absurd (colIndex_eq_none.1 hc) (by simpa using h)
  | some i => exact ⟨i, rfl⟩

/-- C6: if the class column, the site column, or either boundary label of the
feature range is absent from the dataset's column set, `classfill` fails with
the invalid-column error (the pandas `KeyError`).  In the source every column
lookup precedes the write-back of the filled block, so nothing is mutated on
this path; accordingly the embedding returns the error and no dataset. -/
theorem classfill_invalid_column (df : DataFrame) (c s : String)
    (rng : String × String)
    (h : c ∉ df.cols ∨ s ∉ df.cols ∨ rng.1 ∉ df.cols ∨ rng.2 ∉ df.cols) :
    enigmatransforms.classfill df c s rng = .error .invalidColumn := by
  cases hc : colIndex df c with
  | none => simp [enigmatransforms.classfill, hc]
  | some cj =>
    cases hs2 : colIndex df s with
    | none => simp [enigmatransforms.classfill, hc, hs2]
    | some sj =>
      cases hlo : colIndex df rng.1 with
      | none => simp [enigmatransforms.classfill, hc, hs2, hlo]
      | some ia =>
        cases hhi : colIndex df rng.2 with
        | none => simp [enigmatransforms.classfill, hc, hs2, hlo, hhi]
        | some ib =>
          rcases h with h | h | h | h
          · exact absurd (colIndex_mem hc) h
          · exact absurd (colIndex_mem hs2) h
          · exact absurd (colIndex_mem hlo) h
          · exact absurd (colIndex_mem hhi) h

/-- Witness for C6 at a concrete input: the dataset has only column `"a"`,
and the requested class column `"zz"` is absent. -/
theorem classfill_invalid_column_witness :
    ("zz" ∉ (⟨["a"], []⟩ : DataFrame).cols ∨ "a" ∉ (⟨["a"], []⟩ : DataFrame).cols
        ∨ "a" ∉ (⟨["a"], []⟩ : DataFrame).cols ∨ "a" ∉ (⟨["a"], []⟩ : DataFrame).cols) ∧
    enigmatransforms.classfill ⟨["a"], []⟩ "zz" "a" ("a", "a")
      = .error .invalidColumn :=
  ⟨Or.inl (by decide),
   classfill_invalid_column ⟨["a"], []⟩ "zz" "a" ("a", "a") (Or.inl (by decide))⟩

/-- C5 counterexample: on a zero-row dataset whose referenced columns exist,
`classfill` returns normally (with the unchanged dataset) instead of failing:
the source contains no zero-row check and no EmptyDataset error at all. -/
theorem classfill_empty_returns_normally :
    enigmatransforms.classfill ⟨["c", "s", "f"], []⟩ "c" "s" ("f", "f")
      = .ok ⟨["c", "s", "f"], []⟩ := rfl

/-- C5 amended: for every dataset with zero rows on which the referenced
columns all exist, `classfill` returns normally with the dataset unchanged
(instead of failing with an EmptyDataset error, which does not exist in the
code). -/
theorem classfill_empty_rows_noop (df : DataFrame) (c s : String)
    (rng : String × String) (hr : df.rows = [])
    (hc : c ∈ df.cols) (hs : s ∈ df.cols)
    (hlo : rng.1 ∈ df.cols) (hhi : rng.2 ∈ df.cols) :
    enigmatransforms.classfill df c s rng = .ok df := by
  obtain ⟨cj, hcj⟩ := colIndex_of_mem hc
  obtain ⟨sj, hsj⟩ := colIndex_of_mem hs
  obtain ⟨ia, hia⟩ := colIndex_of_mem hlo
  obtain ⟨ib, hib⟩ := colIndex_of_mem hhi
  have hshape := classfill_shape hcj hsj hia hib
  rw [← Prod.mk.eta (p := rng), hshape, hr]
  cases df with
  | mk cols rows =>
    simp only at hr
    subst hr
    rfl

/-- Witness for the amended C5 at a concrete zero-row input. -/
theorem classfill_empty_rows_noop_witness :
    ((⟨["x", "y"], []⟩ : DataFrame).rows = [] ∧ "x" ∈ (⟨["x", "y"], []⟩ : DataFrame).cols
      ∧ "y" ∈ (⟨["x", "y"], []⟩ : DataFrame).cols) ∧
    enigmatransforms.classfill ⟨["x", "y"], []⟩ "x" "x" ("y", "y")
      = .ok ⟨["x", "y"], []⟩ :=
  ⟨⟨rfl, by decide, by decide⟩,
   classfill_empty_rows_noop ⟨["x", "y"], []⟩ "x" "x" ("y", "y") rfl
     (by decide) (by decide) (by decide) (by decide)⟩

/-- C9: the two copies are only textually identical, not behaviourally.  The
`transformations` module never imports numpy, so at the concrete class column
`[0, 0, 0, 1]` its `minorityclass` fails with the unresolved-name error at
`np.zeros` while the `enigmalibrary` copy returns label `1` with disparity
`2`; likewise its `classfill` fails at `np.sum` on a one-row frame that the
`enigmalibrary` copy processes and returns.  This evaluates both embeddings at
the failing inputs; the import-less copy, whose docstrings still promise
returned values, is the code slip. -/
theorem duplicated_modules_diverge :
    enigmatransformations.minorityclass
        ⟨["cls"], [[some 0], [some 0], [some 0], [some 1]]⟩ "cls"
      = .error .nameError ∧
    enigmatransforms.minorityclass
        ⟨["cls"], [[some 0], [some 0], [some 0], [some 1]]⟩ "cls"
      = .ok (some 1, 2) ∧
    enigmatransformations.classfill
        ⟨["s", "c", "f"], [[some 1, some 0, none]]⟩ "c" "s" ("f", "f")
      = .error .nameError ∧
    enigmatransforms.classfill
        ⟨["s", "c", "f"], [[some 1, some 0, none]]⟩ "c" "s" ("f", "f")
      = .ok ⟨["s", "c", "f"], [[some 1, some 0, none]]⟩ :=
  ⟨rfl, rfl, rfl, rfl⟩

/-- C8: the fill loop of `classfill` is enumeration-order independent: two
enumerations of the same set of (site, class) pairs (i.e. permutations of one
another, without duplicates, as produced from the `unique` site/class value
lists) give the same final rows, for every row list and feature-column set. -/
theorem fillLoop_order_irrelevant (sj cj : ℕ) (featCols : List ℕ)
    (pairs1 pairs2 : List (Cell × Cell)) (rows : List (List Cell))
    (hfc : featCols.Nodup) (h1 : pairs1.Nodup) (hperm : pairs1.Perm pairs2) :
    fillLoop sj cj featCols pairs1 rows = fillLoop sj cj featCols pairs2 rows := by
  have h2 : pairs2.Nodup := (hperm.nodup_iff).1 h1
  rw [fillLoop_eq_map sj cj hfc h1 rows, fillLoop_eq_map sj cj hfc h2 rows]
  apply List.map_congr_left
  intro r _
  rw [loopFillRow, loopFillRow,
    find?_eq_of_unique _ pairs1 pairs2 (fun _ _ hx hy => rowMask_unique hx hy)
      (fun a => hperm.mem_iff)]

/-- Witness for C8: the two (site, class) pairs of a concrete dataset
processed in the two possible orders give the same filled rows. -/
theorem fillLoop_order_irrelevant_witness :
    ([(2 : ℕ)].Nodup ∧
      [((some 0 : Cell), (some 0 : Cell)), ((some 1 : Cell), (some 0 : Cell))].Nodup ∧
      [((some 0 : Cell), (some 0 : Cell)), ((some 1 : Cell), (some 0 : Cell))].Perm
        [((some 1 : Cell), (some 0 : Cell)), ((some 0 : Cell), (some 0 : Cell))]) ∧
    fillLoop 0 1 [2]
        [((some 0 : Cell), (some 0 : Cell)), ((some 1 : Cell), (some 0 : Cell))]
        [[some 0, some 0, none], [some 1, some 0, some 3]]
      = fillLoop 0 1 [2]
        [((some 1 : Cell), (some 0 : Cell)), ((some 0 : Cell), (some 0 : Cell))]
        [[some 0, some 0, none], [some 1, some 0, some 3]] :=
  ⟨⟨by decide, by decide, by decide⟩,
   fillLoop_order_irrelevant 0 1 [2] _ _ _ (by decide) (by decide) (by decide)⟩

lemma getD_mem_rows {rows : List (List Cell)} {i : ℕ} (h : i < rows.length) :
    rows.getD i [] ∈ rows := by
  rw [List.getD_eq_getElem?_getD, List.getElem?_eq_getElem h]
  exact List.getElem_mem ..

lemma getD_mem_colVals {df : DataFrame} {i : ℕ} (j : ℕ)
    (h : i < df.rows.length) :
    (df.rows.getD i []).getD j none ∈ colVals df j := by
  rw [colVals]
  exact List.mem_map.2 ⟨df.rows.getD i [], getD_mem_rows h, rfl⟩

/-- C1: on a dataset whose referenced columns exist, `classfill` succeeds, and
every cell that was missing and whose (site, class) group has at least one
non-missing value in that feature column afterwards holds exactly the
arithmetic mean (sum divided by count) of the group's non-missing values in
that column. -/
theorem classfill_fills_group_mean (df : DataFrame) (c s : String)
    (rng : String × String) (cj sj ia ib : ℕ)
    (hc : colIndex df c = some cj) (hs : colIndex df s = some sj)
    (hlo : colIndex df rng.1 = some ia) (hhi : colIndex df rng.2 = some ib)
    (hrect : df.Rect) (s0 k0 : Cell) (i j : ℕ)
    (hi_lt : i < df.rows.length) (hj1 : ia ≤ j) (hj2 : j ≤ ib)
    (hmask : rowMask sj cj s0 k0 (df.rows.getD i []) = true)
    (hmiss : (df.rows.getD i []).getD j none = none)
    (hnonmiss : ∃ r' ∈ df.rows, rowMask sj cj s0 k0 r' = true
        ∧ r'.getD j none ≠ none) :
    ∃ e, enigmatransforms.classfill df c s rng = .ok e ∧
    (e.rows.getD i []).getD j none
      = some ((((df.rows.filter (rowMask sj cj s0 k0)).map
            (fun r => r.getD j none)).filterMap id).sum
          / ((((df.rows.filter (rowMask sj cj s0 k0)).map
            (fun r => r.getD j none)).filterMap id).length : ℚ)) := by
  have hshape := classfill_shape hc hs hlo hhi
  refine ⟨_, by rw [← Prod.mk.eta (p := rng)]; exact hshape, ?_⟩
  rw [getD_map_rows _ _ hi_lt]
  have hmem_pair : (s0, k0) ∈ pairProduct (uniqueList (colVals df sj))
      (uniqueList (colVals df cj)) := by
    obtain ⟨hsj0, hcj0, hs0, hk0⟩ := rowMask_eq hmask
    exact mem_pairProduct.2
      ⟨mem_uniqueList.2 (hsj0 ▸ getD_mem_colVals sj hi_lt),
       mem_uniqueList.2 (hcj0 ▸ getD_mem_colVals cj hi_lt)⟩
  rw [loopFillRow_getD_matched df.rows sj cj
    (List.nodup_range' ia (ib + 1 - ia)) hmem_pair hmask j]
  have hjf : j ∈ List.range' ia (ib + 1 - ia) := by
    rw [List.mem_range'_1]; omega
  have hjlen : j < (df.rows.getD i []).length := by
    rw [hrect _ (getD_mem_rows hi_lt)]
    exact Nat.lt_of_le_of_lt hj2 (colIndex_lt hhi)
  rw [if_pos ⟨hjf, hmiss, hjlen⟩, groupMean]
  obtain ⟨r', hr'mem, hr'mask, hr'val⟩ := hnonmiss
  obtain ⟨q, hq⟩ := Option.ne_none_iff_exists'.1 hr'val
  have hqmem : q ∈ ((df.rows.filter (rowMask sj cj s0 k0)).map
      (fun r => r.getD j none)).filterMap id :=
    List.mem_filterMap.2 ⟨some q,
      List.mem_map.2 ⟨r', List.mem_filter.2 ⟨hr'mem, hr'mask⟩, hq⟩, rfl⟩
  rw [nanmean]
  simp only [List.isEmpty_iff]
  rw [if_neg (List.ne_nil_of_mem hqmem)]


/-- Witness for C1 at a concrete input: in the group (site 1, class 0) the
single feature column has values `[2, NaN]`; the missing cell of row 1 is
filled with the group mean. -/
theorem classfill_fills_group_mean_witness :
    ∃ e, enigmatransforms.classfill
        ⟨["s", "c", "f"], [[some 1, some 0, some 2], [some 1, some 0, none]]⟩
        "c" "s" ("f", "f") = .ok e ∧
      (e.rows.getD 1 []).getD 2 none
        = some ((((((⟨["s", "c", "f"],
              [[some 1, some 0, some 2], [some 1, some 0, none]]⟩ :
              DataFrame)).rows.filter (rowMask 0 1 (some 1) (some 0))).map
              (fun r => r.getD 2 none)).filterMap id).sum
            / ((((((⟨["s", "c", "f"],
              [[some 1, some 0, some 2], [some 1, some 0, none]]⟩ :
              DataFrame)).rows.filter (rowMask 0 1 (some 1) (some 0))).map
              (fun r => r.getD 2 none)).filterMap id).length : ℚ)) :=
  classfill_fills_group_mean
    ⟨["s", "c", "f"], [[some 1, some 0, some 2], [some 1, some 0, none]]⟩
    "c" "s" ("f", "f") 1 0 2 2 rfl rfl rfl rfl (by decide)
    (some 1) (some 0) 1 2 (by decide) (by decide) (by decide)
    (by decide) (by decide)
    ⟨[some 1, some 0, some 2], by decide, by decide, by decide⟩

lemma mask_pair_mem {df : DataFrame} {sj cj : ℕ} {s0 k0 : Cell} {i : ℕ}
    (hi_lt : i < df.rows.length)
    (hmask : rowMask sj cj s0 k0 (df.rows.getD i []) = true) :
    (s0, k0) ∈ pairProduct (uniqueList (colVals df sj))
      (uniqueList (colVals df cj)) := by
  obtain ⟨hsj0, hcj0, hs0, hk0⟩ := rowMask_eq hmask
  exact mem_pairProduct.2
    ⟨mem_uniqueList.2 (hsj0 ▸ getD_mem_colVals sj hi_lt),
     mem_uniqueList.2 (hcj0 ▸ getD_mem_colVals cj hi_lt)⟩

/-- C2: on a dataset whose referenced columns exist, for a (site, class) group
whose feature column is entirely missing, `classfill` succeeds and every cell
of that column belonging to the group is still not-a-number afterwards: the
undefined group mean (`NaN`) is written back, and nothing is imputed from any
larger population. -/
theorem classfill_allmissing_group_nan (df : DataFrame) (c s : String)
    (rng : String × String) (cj sj ia ib : ℕ)
    (hc : colIndex df c = some cj) (hs : colIndex df s = some sj)
    (hlo : colIndex df rng.1 = some ia) (hhi : colIndex df rng.2 = some ib)
    (s0 k0 : Cell) (i j : ℕ)
    (hi_lt : i < df.rows.length) (hj1 : ia ≤ j) (hj2 : j ≤ ib)
    (hmask : rowMask sj cj s0 k0 (df.rows.getD i []) = true)
    (hallmiss : ∀ r' ∈ df.rows, rowMask sj cj s0 k0 r' = true →
        r'.getD j none = none) :
    ∃ e, enigmatransforms.classfill df c s rng = .ok e ∧
      (e.rows.getD i []).getD j none = none := by
  have hshape := classfill_shape hc hs hlo hhi
  refine ⟨_, by rw [← Prod.mk.eta (p := rng)]; exact hshape, ?_⟩
  rw [getD_map_rows _ _ hi_lt]
  have hmiss : (df.rows.getD i []).getD j none = none :=
    hallmiss _ (getD_mem_rows hi_lt) hmask
  rw [loopFillRow_getD_matched df.rows sj cj
    (List.nodup_range' ia (ib + 1 - ia)) (mask_pair_mem hi_lt hmask) hmask j]
  by_cases hcond : j ∈ List.range' ia (ib + 1 - ia)
      ∧ (df.rows.getD i []).getD j none = none
      ∧ j < (df.rows.getD i []).length
  · rw [if_pos hcond, groupMean]
    have hnil : ((df.rows.filter (rowMask sj cj s0 k0)).map
        (fun r => r.getD j none)).filterMap id = [] := by
      rw [List.filterMap_eq_nil_iff]
      intro a ha
      obtain ⟨r', hr', rfl⟩ := List.mem_map.1 ha
      exact hallmiss r' (List.mem_filter.1 hr').1 (List.mem_filter.1 hr').2
    rw [nanmean, hnil]
    rfl
  · rw [if_neg hcond]
    exact hmiss

/-- Witness for C2 at a concrete input: the only row of the (site 1, class 0)
group has a missing feature value, so the whole group is missing and the cell
stays `NaN` after the fill. -/
theorem classfill_allmissing_group_nan_witness :
    ∃ e, enigmatransforms.classfill
        ⟨["s", "c", "f"], [[some 1, some 0, none]]⟩ "c" "s" ("f", "f")
        = .ok e ∧
      (e.rows.getD 0 []).getD 2 none = none :=
  classfill_allmissing_group_nan
    ⟨["s", "c", "f"], [[some 1, some 0, none]]⟩ "c" "s" ("f", "f")
    1 0 2 2 rfl rfl rfl rfl (some 1) (some 0) 0 2
    (by decide) (by decide) (by decide) (by decide)
    (by decide)

/-- C4: on a dataset whose referenced columns exist, `classfill` succeeds, and
afterwards every cell that was non-missing before holds the same value as
before, and every column position outside the inclusive feature range
(including the class and site columns, which the data model places outside
the range) is completely unchanged; the column list and the row count are
also unchanged. -/
theorem classfill_frame (df : DataFrame) (c s : String) (rng : String × String)
    (cj sj ia ib : ℕ)
    (hc : colIndex df c = some cj) (hs : colIndex df s = some sj)
    (hlo : colIndex df rng.1 = some ia) (hhi : colIndex df rng.2 = some ib) :
    ∃ e, enigmatransforms.classfill df c s rng = .ok e ∧
      e.cols = df.cols ∧ e.rows.length = df.rows.length ∧
      ∀ i, i < df.rows.length →
        (e.rows.getD i []).length = (df.rows.getD i []).length ∧
        ∀ t, ((df.rows.getD i []).getD t none ≠ none →
                (e.rows.getD i []).getD t none = (df.rows.getD i []).getD t none)
           ∧ (¬ (ia ≤ t ∧ t ≤ ib) →
                (e.rows.getD i []).getD t none
                  = (df.rows.getD i []).getD t none) := by
  have hshape := classfill_shape hc hs hlo hhi
  refine ⟨⟨df.cols, df.rows.map (loopFillRow df.rows sj cj
      (List.range' ia (ib + 1 - ia)) (pairProduct (uniqueList (colVals df sj))
        (uniqueList (colVals df cj))))⟩,
    by rw [← Prod.mk.eta (p := rng)]; exact hshape, rfl, by simp, ?_⟩
  intro i hi_lt
  constructor
  · rw [getD_map_rows _ _ hi_lt]
    exact loopFillRow_length ..
  · intro t
    constructor
    · intro hnn
      rw [getD_map_rows _ _ hi_lt]
      exact loopFillRow_getD_not_none df.rows sj cj
        (List.nodup_range' ia (ib + 1 - ia)) _ hnn
    · intro hout
      rw [getD_map_rows _ _ hi_lt]
      refine loopFillRow_getD_not_feat df.rows sj cj
        (List.nodup_range' ia (ib + 1 - ia)) _ _ ?_
      intro hmem
      have := List.mem_range'_1.1 hmem
      exact hout (by omega)

/-- Witness for C4 at a concrete input: the non-missing feature cell and the
site/class cells are unchanged by the fill. -/
theorem classfill_frame_witness :
    ∃ e, enigmatransforms.classfill
        ⟨["s", "c", "f"], [[some 1, some 0, some 2], [some 1, some 0, none]]⟩
        "c" "s" ("f", "f") = .ok e ∧
      e.cols = (⟨["s", "c", "f"],
          [[some 1, some 0, some 2], [some 1, some 0, none]]⟩ :
          DataFrame).cols ∧
      e.rows.length = (⟨["s", "c", "f"],
          [[some 1, some 0, some 2], [some 1, some 0, none]]⟩ :
          DataFrame).rows.length ∧
      ∀ i, i < (⟨["s", "c", "f"],
          [[some 1, some 0, some 2], [some 1, some 0, none]]⟩ :
          DataFrame).rows.length →
        (e.rows.getD i []).length
          = ((⟨["s", "c", "f"],
              [[some 1, some 0, some 2], [some 1, some 0, none]]⟩ :
              DataFrame).rows.getD i []).length ∧
        ∀ t, (((⟨["s", "c", "f"],
                [[some 1, some 0, some 2], [some 1, some 0, none]]⟩ :
                DataFrame).rows.getD i []).getD t none ≠ none →
                (e.rows.getD i []).getD t none
                  = ((⟨["s", "c", "f"],
                      [[some 1, some 0, some 2], [some 1, some 0, none]]⟩ :
                      DataFrame).rows.getD i []).getD t none)
           ∧ (¬ ((2 : ℕ) ≤ t ∧ t ≤ 2) →
                (e.rows.getD i []).getD t none
                  = ((⟨["s", "c", "f"],
                      [[some 1, some 0, some 2], [some 1, some 0, none]]⟩ :
                      DataFrame).rows.getD i []).getD t none) :=
  classfill_frame
    ⟨["s", "c", "f"], [[some 1, some 0, some 2], [some 1, some 0, none]]⟩
    "c" "s" ("f", "f") 1 0 2 2 rfl rfl rfl rfl

/-! ## Idempotence support -/

lemma find?_congr_pred {α : Type _} {p q : α → Bool} :
    ∀ {l : List α}, (∀ a ∈ l, p a = q a) → l.find? p = l.find? q := by
  intro l
  induction l with
  | nil => intro _; rfl
  | cons a l ih =>
    intro h
    have ha := h a (List.mem_cons_self ..)
    by_cases hp : p a = true
    · rw [List.find?_cons_of_pos _ hp, List.find?_cons_of_pos _ (ha ▸ hp)]
    · rw [List.find?_cons_of_neg _ hp, List.find?_cons_of_neg _ (fun hq => hp (ha ▸ hq)),
        ih (fun x hx => h x (List.mem_cons_of_mem _ hx))]

lemma loopFillRow_getD_keycol (rows : List (List Cell)) (sj cj : ℕ)
    {fc : List ℕ} (hfc : fc.Nodup) (prs : List (Cell × Cell)) (r : List Cell)
    (t : ℕ) (ht : t = sj ∨ t = cj) :
    (loopFillRow rows sj cj fc prs r).getD t none = r.getD t none := by
  by_cases hn : r.getD t none = none
  · have hun : loopFillRow rows sj cj fc prs r = r := by
      apply loopFillRow_unmatched
      intro p _ hm
      obtain ⟨h1, h2, hp1, hp2⟩ := rowMask_eq hm
      rcases ht with rfl | rfl
      · exact hp1 (by rw [← h1, hn])
      · exact hp2 (by rw [← h2, hn])
    rw [hun]
  · exact loopFillRow_getD_not_none rows sj cj hfc prs hn

lemma setMissing_id_of (m : ℕ → Cell) :
    ∀ (js : List ℕ) (r : List Cell),
      (∀ j ∈ js, (r.getD j none).isNone = true → r.set j (m j) = r) →
      setMissing m js r = r := by
  intro js
  induction js with
  | nil => intro r _; rfl
  | cons j js ih =>
    intro r h
    rw [setMissing_cons]
    by_cases hj : (r.getD j none).isNone = true
    · rw [if_pos hj, h j (List.mem_cons_self ..) hj]
      exact ih r (fun j' hj' => h j' (List.mem_cons_of_mem _ hj'))
    · rw [if_neg hj]
      exact ih r (fun j' hj' => h j' (List.mem_cons_of_mem _ hj'))

lemma filter_loopFill (rows : List (List Cell)) (sj cj : ℕ)
    {fc : List ℕ} (hfc : fc.Nodup) (prs : List (Cell × Cell)) (q1 q2 : Cell) :
    (rows.map (loopFillRow rows sj cj fc prs)).filter (rowMask sj cj q1 q2)
      = (rows.filter (rowMask sj cj q1 q2)).map
          (loopFillRow rows sj cj fc prs) := by
  rw [List.filter_map]
  congr 1
  apply List.filter_congr
  intro r _
  show rowMask sj cj q1 q2 (loopFillRow rows sj cj fc prs r)
    = rowMask sj cj q1 q2 r
  exact loopFillRow_mask rows sj cj hfc prs q1 q2 r

/-- C7: `classfill` is idempotent: whenever it succeeds, running it again on
its own output with the same arguments returns that output unchanged. -/
theorem classfill_idempotent (df e : DataFrame) (c s : String)
    (rng : String × String)
    (hok : enigmatransforms.classfill df c s rng = .ok e) :
    enigmatransforms.classfill e c s rng = .ok e := by
  obtain ⟨cj, sj, ia, ib, hc, hs2, hlo, hhi⟩ := classfill_ok_inv hok
  have hshape := classfill_shape hc hs2 hlo hhi
  rw [← Prod.mk.eta (p := rng), hshape] at hok
  injection hok with he
  subst he
  set fc := List.range' ia (ib + 1 - ia) with hfcdef
  have hfc : fc.Nodup := List.nodup_range' ia (ib + 1 - ia)
  set prs := pairProduct (uniqueList (colVals df sj))
    (uniqueList (colVals df cj)) with hprsdef
  set F := loopFillRow df.rows sj cj fc prs with hFdef
  set e : DataFrame := ⟨df.cols, df.rows.map F⟩ with hedef
  have hcv : ∀ t, t = sj ∨ t = cj → colVals e t = colVals df t := by
    intro t ht
    show (df.rows.map F).map (fun r => r.getD t none) = colVals df t
    rw [List.map_map, colVals]
    apply List.map_congr_left
    intro r _
    show (F r).getD t none = r.getD t none
    rw [hFdef]
    exact loopFillRow_getD_keycol df.rows sj cj hfc prs r t ht
  have hc2 : colIndex e c = some cj := hc
  have hs3 : colIndex e s = some sj := hs2
  have hlo2 : colIndex e rng.1 = some ia := hlo
  have hhi2 : colIndex e rng.2 = some ib := hhi
  have hshape2 := classfill_shape hc2 hs3 hlo2 hhi2
  rw [← Prod.mk.eta (p := rng), hshape2]
  have hprs2 : pairProduct (uniqueList (colVals e sj))
      (uniqueList (colVals e cj)) = prs := by
    rw [hcv sj (Or.inl rfl), hcv cj (Or.inr rfl), hprsdef]
  rw [← hfcdef, hprs2]
  have hrows : e.rows.map (loopFillRow e.rows sj cj fc prs) = e.rows := by
    apply map_eq_self_of
    intro r1 hr1
    obtain ⟨r, hr, hr1eq⟩ := List.mem_map.1 hr1
    have hmasks : ∀ q1 q2, rowMask sj cj q1 q2 r1 = rowMask sj cj q1 q2 r := by
      intro q1 q2
      rw [← hr1eq, hFdef]
      exact loopFillRow_mask df.rows sj cj hfc prs q1 q2 r
    have hfcongr : prs.find? (fun q => rowMask sj cj q.1 q.2 r1)
        = prs.find? (fun q => rowMask sj cj q.1 q.2 r) :=
      find?_congr_pred (fun q _ => hmasks q.1 q.2)
    rw [loopFillRow, hfcongr]
    cases hfind : prs.find? (fun p => rowMask sj cj p.1 p.2 r) with
    | none => rfl
    | some p =>
      show pairFillRow e.rows sj cj p.1 p.2 fc r1 = r1
      have hm0 := List.find?_some hfind
      have hm : rowMask sj cj p.1 p.2 r = true := hm0
      have hm1 : rowMask sj cj p.1 p.2 r1 = true := by rw [hmasks]; exact hm
      have hpmem : p ∈ prs := List.mem_of_find?_eq_some hfind
      rw [pairFillRow, if_pos hm1]
      apply setMissing_id_of
      intro j hj hnone1
      have hnone1' : r1.getD j none = none := Option.isNone_iff_eq_none.1 hnone1
      have hchar : r1.getD j none
          = if j ∈ fc ∧ r.getD j none = none ∧ j < r.length
            then groupMean df.rows sj cj j p.1 p.2 else r.getD j none := by
        rw [← hr1eq, hFdef]
        exact loopFillRow_getD_matched df.rows sj cj hfc hpmem hm j
      by_cases hcond : j ∈ fc ∧ r.getD j none = none ∧ j < r.length
      · have hgm : groupMean df.rows sj cj j p.1 p.2 = none := by
          rw [hchar, if_pos hcond] at hnone1'
          exact hnone1'
        have hallnone : ∀ r' ∈ df.rows.filter (rowMask sj cj p.1 p.2),
            r'.getD j none = none := by
          intro r' hr'
          rw [groupMean, nanmean] at hgm
          by_cases hemp : (((df.rows.filter (rowMask sj cj p.1 p.2)).map
              (fun x => x.getD j none)).filterMap id).isEmpty = true
          · have hnil := List.isEmpty_iff.1 hemp
            exact List.filterMap_eq_nil_iff.1 hnil (r'.getD j none)
              (List.mem_map_of_mem _ hr')
          · rw [if_neg hemp] at hgm
            simp at hgm
        have hgm1 : groupMean e.rows sj cj j p.1 p.2 = none := by
          rw [groupMean]
          show nanmean (((df.rows.map F).filter (rowMask sj cj p.1 p.2)).map
            (fun x => x.getD j none)) = none
          rw [hFdef, filter_loopFill df.rows sj cj hfc prs p.1 p.2,
            List.map_map]
          have hnil2 : ((df.rows.filter (rowMask sj cj p.1 p.2)).map
              ((fun x => x.getD j none) ∘ loopFillRow df.rows sj cj fc prs)
              ).filterMap id = [] := by
            rw [List.filterMap_eq_nil_iff]
            intro a ha
            obtain ⟨r', hr', rfl⟩ := List.mem_map.1 ha
            show (loopFillRow df.rows sj cj fc prs r').getD j none = none
            have hm' : rowMask sj cj p.1 p.2 r' = true :=
              (List.mem_filter.1 hr').2
            have hn' : r'.getD j none = none := hallnone r' hr'
            rw [loopFillRow_getD_matched df.rows sj cj hfc hpmem hm' j]
            by_cases hcnd : j ∈ fc ∧ r'.getD j none = none ∧ j < r'.length
            · rw [if_pos hcnd]; exact hgm
            · rw [if_neg hcnd]; exact hn'
          rw [nanmean, hnil2]
          rfl
        rw [hgm1, ← hnone1', set_getD_self]
      · have hrj : r.getD j none = none := by
          rw [hchar, if_neg hcond] at hnone1'
          exact hnone1'
        have hjlen : ¬ j < r.length := fun hlt => hcond ⟨hj, hrj, hlt⟩
        have hlen1 : r1.length = r.length := by
          rw [← hr1eq, hFdef]
          exact loopFillRow_length ..
        rw [List.set_eq_of_length_le (by omega)]
  rw [hrows]

/-- Witness for C7 at a concrete input: a dataset the fill leaves fixed
(its only missing cell sits in an all-missing group), so the first run
returns it and the second run returns it again. -/
theorem classfill_idempotent_witness :
    enigmatransforms.classfill
        ⟨["s", "c", "f"], [[some 1, some 0, some 2], [some 2, some 0, none]]⟩
        "c" "s" ("f", "f")
      = .ok ⟨["s", "c", "f"],
          [[some 1, some 0, some 2], [some 2, some 0, none]]⟩ :=
  classfill_idempotent
    ⟨["s", "c", "f"], [[some 1, some 0, some 2], [some 2, some 0, none]]⟩
    ⟨["s", "c", "f"], [[some 1, some 0, some 2], [some 2, some 0, none]]⟩
    "c" "s" ("f", "f") rfl

/-! ## `minorityclass` characterisation -/

lemma minorityclass_char {df : DataFrame} {c : String} {cj : ℕ}
    (hc : colIndex df c = some cj) (hne : df.rows ≠ [])
    (hnn : ∀ x ∈ colVals df cj, x ≠ none) :
    ∃ l, (uniqueList (colVals df cj)).find?
        (fun v => decide ((colVals df cj).count v
          = listMinN (classCounts (colVals df cj)))) = some l ∧
      enigmatransforms.minorityclass df c
        = .ok (l, (listMaxN (classCounts (colVals df cj)) : ℤ)
            - (listMinN (classCounts (colVals df cj)) : ℤ)) := by
  have hser : colVals df cj ≠ [] := by
    rw [colVals]
    exact fun h => hne (List.map_eq_nil_iff.1 h)
  have huniqne : uniqueList (colVals df cj) ≠ [] := uniqueList_ne_nil hser
  have hcnts : (uniqueList (colVals df cj)).map
      (fun v => (colVals df cj).countP (fun x => eqCell x v))
      = classCounts (colVals df cj) := by
    rw [classCounts]
    apply List.map_congr_left
    intro v hv
    exact countP_eqCell (hnn v (mem_uniqueList.1 hv)) hnn
  have hcne : classCounts (colVals df cj) ≠ [] := by
    rw [classCounts]
    exact fun h => huniqne (List.map_eq_nil_iff.1 h)
  have hminmem : listMinN (classCounts (colVals df cj))
      ∈ classCounts (colVals df cj) := listMinN_mem hcne
  have hmaxmem : listMaxN (classCounts (colVals df cj))
      ∈ classCounts (colVals df cj) := listMaxN_mem hcne
  have hmm1 : listMinN (classCounts (colVals df cj))
      ∈ (uniqueList (colVals df cj)).map
        (fun v => (colVals df cj).count v) := hminmem
  have hmm2 : listMaxN (classCounts (colVals df cj))
      ∈ (uniqueList (colVals df cj)).map
        (fun v => (colVals df cj).count v) := hmaxmem
  have hfind := find_of_firstIdxN_map
    (fun v => (colVals df cj).count v) hmm1
  refine ⟨_, hfind, ?_⟩
  simp only [enigmatransforms.minorityclass, hc]
  rw [if_neg (fun hemp => huniqne (List.isEmpty_iff.1 hemp)), hcnts]
  have hget1 : (classCounts (colVals df cj)).getD
      (argminN (classCounts (colVals df cj))) 0
      = listMinN (classCounts (colVals df cj)) := getD_firstIdxN hminmem
  have hget2 : (classCounts (colVals df cj)).getD
      (argmaxN (classCounts (colVals df cj))) 0
      = listMaxN (classCounts (colVals df cj)) := getD_firstIdxN hmaxmem
  rw [hget1, hget2]
  rfl

/-- C3: on a dataset with at least one row whose class column exists and holds
only actual labels, `minorityclass` returns a label that occurs in the column
and whose occurrence count is minimal, together with a disparity equal to the
maximum class count minus the minimum class count; the disparity is
non-negative and vanishes exactly when those counts coincide (in particular
when there is exactly one distinct class).  Moreover on the concrete class
column `[0, 0, 0, 1]` it returns label `1` and disparity `2`. -/
theorem minorityclass_props :
    (∀ (df : DataFrame) (c : String) (cj : ℕ),
      colIndex df c = some cj → df.rows ≠ [] →
      (∀ x ∈ colVals df cj, x ≠ none) →
      ∃ l d, enigmatransforms.minorityclass df c = .ok (l, d) ∧
        l ∈ colVals df cj ∧
        (∀ v ∈ colVals df cj,
          (colVals df cj).count l ≤ (colVals df cj).count v) ∧
        d = (listMaxN (classCounts (colVals df cj)) : ℤ)
            - (listMinN (classCounts (colVals df cj)) : ℤ) ∧
        0 ≤ d ∧
        (d = 0 ↔ listMaxN (classCounts (colVals df cj))
            = listMinN (classCounts (colVals df cj))) ∧
        ((uniqueList (colVals df cj)).length = 1 → d = 0)) ∧
    enigmatransforms.minorityclass
        ⟨["cls"], [[some 0], [some 0], [some 0], [some 1]]⟩ "cls"
      = .ok (some 1, 2) := by
  constructor
  · intro df c cj hc hne hnn
    obtain ⟨l, hfind, hres⟩ := minorityclass_char hc hne hnn
    have hl0 := List.find?_some hfind
    have hlcnt : (colVals df cj).count l
        = listMinN (classCounts (colVals df cj)) := of_decide_eq_true hl0
    have hlmem : l ∈ uniqueList (colVals df cj) :=
      List.mem_of_find?_eq_some hfind
    have hcle : listMinN (classCounts (colVals df cj))
        ≤ listMaxN (classCounts (colVals df cj)) := by
      by_cases hcne : classCounts (colVals df cj) = []
      · rw [hcne]; exact Nat.le_refl _
      · exact listMinN_le (listMaxN_mem hcne)
    refine ⟨l, _, hres, mem_uniqueList.1 hlmem, ?_, rfl, ?_, ?_, ?_⟩
    · intro v hv
      rw [hlcnt]
      apply listMinN_le
      show (colVals df cj).count v ∈ classCounts (colVals df cj)
      exact List.mem_map_of_mem _ (mem_uniqueList.2 hv)
    · omega
    · constructor <;> intro h <;> omega
    · intro hlen1
      have hclen : (classCounts (colVals df cj)).length = 1 := by
        rw [classCounts, List.length_map]
        exact hlen1
      obtain ⟨x, hx⟩ := List.length_eq_one.1 hclen
      rw [hx]
      have h1 : listMaxN [x] = x := rfl
      have h2 : listMinN [x] = x := rfl
      omega
  · rfl

/-- Witness for the universal part of C3 at a concrete class column
`[0, 1, 1]`. -/
theorem minorityclass_props_witness :
    ∃ l d, enigmatransforms.minorityclass
        ⟨["cls"], [[some 0], [some 1], [some 1]]⟩ "cls" = .ok (l, d) ∧
      l ∈ colVals ⟨["cls"], [[some 0], [some 1], [some 1]]⟩ 0 ∧
      (∀ v ∈ colVals ⟨["cls"], [[some 0], [some 1], [some 1]]⟩ 0,
        (colVals ⟨["cls"], [[some 0], [some 1], [some 1]]⟩ 0).count l
          ≤ (colVals ⟨["cls"], [[some 0], [some 1], [some 1]]⟩ 0).count v) ∧
      d = (listMaxN (classCounts
            (colVals ⟨["cls"], [[some 0], [some 1], [some 1]]⟩ 0)) : ℤ)
          - (listMinN (classCounts
            (colVals ⟨["cls"], [[some 0], [some 1], [some 1]]⟩ 0)) : ℤ) ∧
      0 ≤ d ∧
      (d = 0 ↔ listMaxN (classCounts
            (colVals ⟨["cls"], [[some 0], [some 1], [some 1]]⟩ 0))
          = listMinN (classCounts
            (colVals ⟨["cls"], [[some 0], [some 1], [some 1]]⟩ 0))) ∧
      ((uniqueList (colVals ⟨["cls"], [[some 0], [some 1], [some 1]]⟩ 0)).length
          = 1 → d = 0) :=
  minorityclass_props.1 ⟨["cls"], [[some 0], [some 1], [some 1]]⟩ "cls" 0
    rfl (by decide) (by decide)

/-! ## First-appearance order of `unique` -/

lemma uniqueAux_pairwise :
    ∀ (s seen : List Cell), (uniqueAux seen s).Pairwise
      (fun a b => firstOccIdx s a < firstOccIdx s b) := by
  intro s
  induction s with
  | nil => intro seen; exact List.Pairwise.nil
  | cons x t ih =>
    intro seen
    by_cases hx : x ∈ seen
    · rw [uniqueAux, if_pos hx]
      refine (ih seen).imp_of_mem ?_
      intro a b ha hb hr
      have hax : a ≠ x := fun he => (mem_uniqueAux.1 ha).2 (by rw [he]; exact hx)
      have hbx : b ≠ x := fun he => (mem_uniqueAux.1 hb).2 (by rw [he]; exact hx)
      rw [firstOccIdx, if_neg (fun he => hax he.symm),
        firstOccIdx, if_neg (fun he => hbx he.symm)]
      omega
    · rw [uniqueAux, if_neg hx]
      refine List.pairwise_cons.2 ⟨?_, ?_⟩
      · intro y hy
        have hyx : y ≠ x := fun he => (mem_uniqueAux.1 hy).2
          (by rw [he]; exact List.mem_cons_self ..)
        rw [firstOccIdx, if_pos rfl, firstOccIdx,
          if_neg (fun he => hyx he.symm)]
        omega
      · refine (ih (x :: seen)).imp_of_mem ?_
        intro a b ha hb hr
        have hax : a ≠ x := fun he => (mem_uniqueAux.1 ha).2
          (by rw [he]; exact List.mem_cons_self ..)
        have hbx : b ≠ x := fun he => (mem_uniqueAux.1 hb).2
          (by rw [he]; exact List.mem_cons_self ..)
        rw [firstOccIdx, if_neg (fun he => hax he.symm),
          firstOccIdx, if_neg (fun he => hbx he.symm)]
        omega

lemma uniqueList_pairwise (s : List Cell) :
    (uniqueList s).Pairwise (fun a b => firstOccIdx s a < firstOccIdx s b) :=
  uniqueAux_pairwise s []

lemma find?_first_of_pairwise {R : Cell → Cell → Prop} {p : Cell → Bool} :
    ∀ {u : List Cell} {l : Cell}, u.Pairwise R → u.find? p = some l →
      ∀ v ∈ u, p v = true → v = l ∨ R l v := by
  intro u
  induction u with
  | nil => intro l _ hfind; cases hfind
  | cons a u ih =>
    intro l hpw hfind v hv hpv
    obtain ⟨hra, hpw'⟩ := List.pairwise_cons.1 hpw
    by_cases hpa : p a = true
    · rw [List.find?_cons_of_pos _ hpa] at hfind
      injection hfind with hl
      subst hl
      rcases List.mem_cons.1 hv with rfl | hv
      · exact Or.inl rfl
      · exact Or.inr (hra v hv)
    · rw [List.find?_cons_of_neg _ hpa] at hfind
      rcases List.mem_cons.1 hv with rfl | hv
      · exact absurd hpv hpa
      · exact ih hpw' hfind v hv hpv

/-- C10: among tied minimum-count labels, `minorityclass` deterministically
returns the one whose first occurrence in the class column comes earliest
(the `unique` list is in first-appearance order and `argmin` takes the first
index attaining the minimum); the disparity is the maximum count minus the
minimum count regardless of which tied maximum label `argmax` picks. -/
theorem minorityclass_tiebreak (df : DataFrame) (c : String) (cj : ℕ)
    (hc : colIndex df c = some cj) (hne : df.rows ≠ [])
    (hnn : ∀ x ∈ colVals df cj, x ≠ none) :
    ∃ l d, enigmatransforms.minorityclass df c = .ok (l, d) ∧
      (colVals df cj).count l = listMinN (classCounts (colVals df cj)) ∧
      (∀ v ∈ colVals df cj,
        (colVals df cj).count v = listMinN (classCounts (colVals df cj)) →
        firstOccIdx (colVals df cj) l ≤ firstOccIdx (colVals df cj) v) ∧
      d = (listMaxN (classCounts (colVals df cj)) : ℤ)
          - (listMinN (classCounts (colVals df cj)) : ℤ) := by
  obtain ⟨l, hfind, hres⟩ := minorityclass_char hc hne hnn
  have hl0 := List.find?_some hfind
  have hlcnt : (colVals df cj).count l
      = listMinN (classCounts (colVals df cj)) := of_decide_eq_true hl0
  refine ⟨l, _, hres, hlcnt, ?_, rfl⟩
  intro v hv hvcnt
  have hvu : v ∈ uniqueList (colVals df cj) := mem_uniqueList.2 hv
  have hcase := find?_first_of_pairwise (uniqueList_pairwise (colVals df cj))
    hfind v hvu (decide_eq_true hvcnt)
  rcases hcase with rfl | hlt
  · exact Nat.le_refl _
  · exact Nat.le_of_lt hlt

/-- Witness for C10 at a concrete class column `[1, 1, 2, 2]`: counts tie, and
the returned minority label is the first-appearing label `1`. -/
theorem minorityclass_tiebreak_witness :
    ∃ l d, enigmatransforms.minorityclass
        ⟨["cls"], [[some 1], [some 1], [some 2], [some 2]]⟩ "cls"
        = .ok (l, d) ∧
      (colVals ⟨["cls"], [[some 1], [some 1], [some 2], [some 2]]⟩ 0).count l
        = listMinN (classCounts
          (colVals ⟨["cls"], [[some 1], [some 1], [some 2], [some 2]]⟩ 0)) ∧
      (∀ v ∈ colVals ⟨["cls"], [[some 1], [some 1], [some 2], [some 2]]⟩ 0,
        (colVals ⟨["cls"], [[some 1], [some 1], [some 2], [some 2]]⟩ 0).count v
          = listMinN (classCounts
            (colVals ⟨["cls"], [[some 1], [some 1], [some 2], [some 2]]⟩ 0)) →
        firstOccIdx
            (colVals ⟨["cls"], [[some 1], [some 1], [some 2], [some 2]]⟩ 0) l
          ≤ firstOccIdx
            (colVals ⟨["cls"], [[some 1], [some 1], [some 2], [some 2]]⟩ 0) v) ∧
      d = (listMaxN (classCounts
            (colVals ⟨["cls"], [[some 1], [some 1], [some 2], [some 2]]⟩ 0)) : ℤ)
          - (listMinN (classCounts
            (colVals ⟨["cls"], [[some 1], [some 1], [some 2], [some 2]]⟩ 0)) : ℤ) :=
  minorityclass_tiebreak ⟨["cls"], [[some 1], [some 1], [some 2], [some 2]]⟩
    "cls" 0 rfl (by decide) (by decide)
